import Mathlib

/-!
Verification of the Eurex liquidity-data core: a shallow embedding of the
tokenizer, mapping inferencer, multi-level and L1 order books, the
chunk-and-merge snapshot pipeline, and the per-second metric computation,
together with theorems settling the specification claims about them.

Sources embedded:
- `src/eurex_liquidity/parser.py` (tokenizer, `infer_di_mapping`, `tokens_to_event`)
- `src/eurex_liquidity/orderbook_multi.py` (`MultiLevelState`, `MultiLevelBook`)
- `src/eurex_liquidity/orderbook.py` (`L1State`, `L1Book`)
- `scripts/parse_and_l5.py` (chunk flush and batched merge of snapshots)
- `scripts/aggregate_l5.py` (`compute_l5_metrics`)

Python floats are modelled as rationals, Python ints as `Int`, absent values
(`None`) as `Option`, and Python dicts as association lists with
insertion-order update semantics.
-/

namespace EurexLiq

/-! ## Tokenizer (`extract_entry_tokens_from_di_line`)

The Python function scans a line left to right; on `{` it counts nested brace
depth until the matching `}`; the enclosed text is split on commas (empties
preserved) and each token is whitespace-stripped.  An unbalanced block runs to
end of line and contributes nothing.  We model the scan as a single pass over
the character list with an optional "inside a block" state holding the current
extra nesting depth and the accumulated (reversed) inner characters. -/

/-- Split a character list on commas, preserving empty fields
(Python `inner.split(",")`). -/
def splitComma : List Char → List (List Char)
  | [] => [[]]
  | c :: cs =>
    if c = ',' then [] :: splitComma cs
    else
      match splitComma cs with
      | t :: ts => (c :: t) :: ts
      | [] => [[c]]

/-- Python `str.strip()`: drop whitespace from both ends. -/
def trimChars (cs : List Char) : List Char :=
  ((cs.dropWhile Char.isWhitespace).reverse.dropWhile Char.isWhitespace).reverse

/-- Split on commas and strip whitespace around each token
(Python `[t.strip() for t in inner.split(",")]`). -/
def splitStrip (cs : List Char) : List String :=
  (splitComma cs).map (fun t => String.mk (trimChars t))

/-- One left-to-right scan of the Python loop.  `none` state: outside any
block; `some (d, acc)` state: inside a block at extra nesting depth `d`
(Python `brace_count = d + 1`) with the inner characters seen so far in
`acc` (reversed).  Input exhausted inside a block: the block is unbalanced
and discarded, exactly as the Python loop appends nothing. -/
def diScan : List Char → Option (Nat × List Char) → List (List String)
  | [], _ => []
  | c :: cs, none =>
    if c = '{' then diScan cs (some (0, [])) else diScan cs none
  | c :: cs, some (d, acc) =>
    if c = '}' then
      match d with
      | 0 => splitStrip acc.reverse :: diScan cs none
      | d' + 1 => diScan cs (some (d', c :: acc))
    else if c = '{' then diScan cs (some (d + 1, c :: acc))
    else diScan cs (some (d, c :: acc))

/-- Python `extract_entry_tokens_from_di_line` from `parser.py`. -/
def extract_entry_tokens_from_di_line (line : String) : List (List String) :=
  diScan line.data none

/-- Characters that change the brace-scanning state. -/
def braceFree (cs : List Char) : Prop := ∀ c ∈ cs, c ≠ '{' ∧ c ≠ '}'

instance braceFree.dec : ∀ cs, Decidable (braceFree cs) := fun cs =>
  List.decidableBAll _ cs

theorem splitComma_length (cs : List Char) :
    (splitComma cs).length = cs.count ',' + 1 := by
  induction cs with
  | nil => simp [splitComma]
  | cons c cs ih =>
    by_cases h : c = ','
    · subst h
      simp [splitComma, List.count_cons, ih]
    · rw [List.count_cons]
      simp only [splitComma, if_neg h]
      rcases hsc : splitComma cs with _ | ⟨t, ts⟩
      · rw [hsc] at ih; simp at ih
      · rw [hsc] at ih
        simp only [List.length_cons] at ih ⊢
        simpa [h] using ih

theorem splitStrip_length (cs : List Char) :
    (splitStrip cs).length = cs.count ',' + 1 := by
  simp [splitStrip, splitComma_length]

/-- Scanning inside a block over brace-free characters just accumulates them. -/
theorem diScan_inside (inner : List Char) (hin : braceFree inner) :
    ∀ (d : Nat) (acc : List Char) (rest : List Char),
      diScan (inner ++ '}' :: rest) (some (d, acc)) =
        (if d = 0 then splitStrip (acc.reverse ++ inner) :: diScan rest none
         else diScan rest (some (d - 1, '}' :: (inner.reverse ++ acc)))) := by
  induction inner with
  | nil =>
    intro d acc rest
    cases d <;> simp [diScan]
  | cons c cs ih =>
    intro d acc rest
    obtain ⟨hc1, hc2⟩ := hin c (List.mem_cons_self c cs)
    have hcs : braceFree cs := fun x hx => hin x (List.mem_cons_of_mem c hx)
    simp only [List.cons_append, diScan, if_neg hc2, if_neg hc1, List.append_eq]
    rw [ih hcs d (c :: acc) rest]
    simp

/-- Scanning inside a block that never closes before end of line yields
nothing. -/
theorem diScan_inside_unclosed (inner : List Char) (hin : braceFree inner) :
    ∀ (d : Nat) (acc : List Char), diScan inner (some (d, acc)) = [] := by
  induction inner with
  | nil => intro d acc; simp [diScan]
  | cons c cs ih =>
    intro d acc
    obtain ⟨hc1, hc2⟩ := hin c (List.mem_cons_self c cs)
    simp only [diScan, if_neg hc2, if_neg hc1]
    exact ih (fun x hx => hin x (List.mem_cons_of_mem c hx)) d (c :: acc)

/-- Scanning outside a block skips brace-free characters. -/
theorem diScan_skip (pre : List Char) (hpre : braceFree pre) (rest : List Char) :
    diScan (pre ++ rest) none = diScan rest none := by
  induction pre with
  | nil => rfl
  | cons c cs ih =>
    obtain ⟨hc1, _⟩ := hpre c (List.mem_cons_self c cs)
    simp only [List.cons_append, diScan, if_neg hc1]
    exact ih (fun x hx => hpre x (List.mem_cons_of_mem c hx))

/-! ## Value-shape predicates and the mapping inferencer (`parser.py`)

`infer_di_mapping` collects per-column statistics over a bounded sample of
tokenized entries and assigns field roles from them.  Python's `int(...)` and
`float(...)` acceptance is modelled by explicit recognizers on the token
characters (tokens are already whitespace-stripped by the tokenizer). -/

/-- Python `_is_int_like`: nonempty digits, optionally preceded by a single `-`. -/
def is_int_like (s : String) : Bool :=
  match s.data with
  | [] => false
  | '-' :: rest => !rest.isEmpty && rest.all Char.isDigit
  | l => l.all Char.isDigit

/-- Python `_is_big_ns_int`: int-like with 16–20 digits once leading dashes are
stripped (`len(s.lstrip("-"))`). -/
def is_big_ns_int (s : String) : Bool :=
  let digits := (s.data.dropWhile (· = '-')).length
  is_int_like s && (16 ≤ digits && digits ≤ 20)

/-- Nonempty all-digit character run. -/
def decDigits (l : List Char) : Bool := !l.isEmpty && l.all Char.isDigit

/-- Drop a single leading sign character. -/
def dropSign : List Char → List Char
  | [] => []
  | c :: cs => if c = '+' ∨ c = '-' then cs else c :: cs

/-- A decimal mantissa `float(...)` accepts: digit/dot characters with at
most one dot and at least one digit. -/
def mantissaLike (l : List Char) : Bool :=
  l.all (fun c => c.isDigit || c = '.') && l.count '.' ≤ 1 && l.any Char.isDigit

/-- Split a character run at the first exponent marker `e`/`E`, if any. -/
def splitAtExp : List Char → Option (List Char × List Char)
  | [] => none
  | c :: cs =>
    if c = 'e' ∨ c = 'E' then some ([], cs)
    else
      match splitAtExp cs with
      | some (m, ex) => some (c :: m, ex)
      | none => none

/-- Python `_is_float_like`: whether `float(s)` succeeds — an optionally signed
decimal mantissa with an optional signed integer exponent, or the special
values `inf`/`infinity`/`nan` (case-insensitive). -/
def is_float_like (s : String) : Bool :=
  let l := dropSign s.data
  let lower := l.map Char.toLower
  if lower = "inf".data ∨ lower = "infinity".data ∨ lower = "nan".data then true
  else
    match splitAtExp l with
    | some (m, ex) => mantissaLike m && decDigits (dropSign ex)
    | none => mantissaLike l

/-- Numeric value of an all-digit character run. -/
def digitsVal (l : List Char) : Nat :=
  l.foldl (fun a c => a * 10 + (c.toNat - '0'.toNat)) 0

/-- Python `int(s)` on a stripped token: optional single sign then digits. -/
def pyInt? (s : String) : Option Int :=
  match s.data with
  | '-' :: rest => if decDigits rest then some (-(digitsVal rest : Int)) else none
  | '+' :: rest => if decDigits rest then some (digitsVal rest : Int) else none
  | l => if decDigits l then some (digitsVal l : Int) else none

/-- Python `DiMapping`: the seven inferred token positions. -/
structure DiMapping where
  md_update_action_idx : Nat
  entry_type_idx : Nat
  price_level_idx : Nat
  security_id_idx : Nat
  price_idx : Nat
  size_idx : Nat
  ts_ns_idx : Nat
deriving DecidableEq, Repr

/-- The sampled entries: tokenized entries of the first `sample_limit` lines. -/
def sampleEntries (lines : List String) (sample_limit : Nat) : List (List String) :=
  (lines.take sample_limit).flatMap extract_entry_tokens_from_di_line

/-- Python `max(len(e) for e in samples)` (0 on an empty sample). -/
def maxTokLen (samples : List (List String)) : Nat :=
  (samples.map List.length).foldl max 0

/-- A per-column statistic: how many sampled entries satisfy `p` at token
position `idx`, a missing token reading as `""`. -/
def colCount (samples : List (List String)) (p : String → Bool) (idx : Nat) : Nat :=
  samples.countP (fun e => p (e.getD idx ""))

/-- Python `max(range(n), key=f)`: the first index attaining the maximum. -/
def argmaxFirst (f : Nat → Nat) (n : Nat) : Nat :=
  (List.range n).foldl (fun best i => if f i > f best then i else best) 0

/-- Python `_first_float_after` / `_first_int_after`: the first index strictly after
`start` with a positive count, else the global first argmax. -/
def firstAfter (f : Nat → Nat) (n : Nat) (start : Nat) : Nat :=
  match (List.range' (start + 1) (n - (start + 1))).find? (fun j => f j > 0) with
  | some j => j
  | none => argmaxFirst f n

/-- The descending order used by `sorted(..., reverse=True)` on
`(count, index)` pairs. -/
def descPairLE (p q : Nat × Nat) : Prop :=
  q.1 < p.1 ∨ (q.1 = p.1 ∧ q.2 ≤ p.2)

instance descPairLE.dec : DecidableRel descPairLE := fun p q => by
  unfold descPairLE; infer_instance

/-- Python `max` over a nonempty list of `(count, index)` pairs:
lexicographic maximum, the first occurrence winning ties. -/
def maxPairLex (p : Int × Nat) (ps : List (Int × Nat)) : Int × Nat :=
  ps.foldl (fun best q =>
    if best.1 < q.1 ∨ (best.1 = q.1 ∧ best.2 < q.2) then q else best) p

/-- Python `infer_di_mapping` from `parser.py`.  Returns `none` iff the sample has
no entries or only zero-length entries; otherwise assigns roles from the
column statistics, with the Eurex default positions for action/side/level and
a ranked-small-integer fallback when position 2 fails side validation. -/
def infer_di_mapping (lines : List String) (sample_limit : Nat := 200) :
    Option DiMapping :=
  let samples := sampleEntries lines sample_limit
  if samples.isEmpty then none
  else
    let n := maxTokLen samples
    if n = 0 then none
    else
      let bigNs := colCount samples is_big_ns_int
      let floatC := colCount samples is_float_like
      let intC := colCount samples is_int_like
      let smallC := colCount samples
        (fun v => is_int_like v && ((pyInt? v).any (fun x => 0 ≤ x && x ≤ 10)))
      let mC := colCount samples (fun v => v = "M")
      let ts_ns_idx := argmaxFirst bigNs n
      let price_idx :=
        if (List.range n).any (fun i => mC i > 0) then
          firstAfter floatC n (argmaxFirst mC n)
        else argmaxFirst floatC n
      let size_idx := firstAfter intC n price_idx
      let defaultRoles : Nat × Nat × Nat := (0, 1, 2)
      let (md_update_action_idx, price_level_idx, entry_type_idx) :=
        if 2 < n then
          let etVals := (samples.take 20).filterMap (fun e =>
            if 2 < e.length then
              match pyInt? (e.getD 2 "") with
              | some v => if v = 0 ∨ v = 1 then some v else none
              | none => none
            else none)
          if etVals.length < 5 ∨ etVals.dedup.length < 2 then
            let ranking := List.insertionSort descPairLE
              ((List.range n).map (fun i => (smallC i, i)))
            let candidateSmall := (ranking.map Prod.snd).filter
              (fun i => ¬(i = price_idx ∨ i = size_idx ∨ i = ts_ns_idx))
            let et := candidateSmall.getD 0 1
            let act := if 1 < candidateSmall.length then candidateSmall.getD 1 0 else 0
            let remaining := candidateSmall.filter (fun i => ¬(i = et ∨ i = act))
            (act, remaining.getD 0 1, et)
          else defaultRoles
        else defaultRoles
      let candidatesSec := (List.range n).filterMap (fun i =>
        if i = price_idx ∨ i = size_idx ∨ i = ts_ns_idx ∨ i = entry_type_idx ∨
            i = md_update_action_idx ∨ i = price_level_idx then none
        else if intC i > 0 ∧ bigNs i = 0 then
          some ((intC i : Int) - (smallC i : Int), i)
        else none)
      let security_id_idx :=
        match candidatesSec with
        | [] => 3
        | p :: ps => (maxPairLex p ps).2
      some
        { md_update_action_idx := md_update_action_idx
          entry_type_idx := entry_type_idx
          price_level_idx := price_level_idx
          security_id_idx := security_id_idx
          price_idx := price_idx
          size_idx := size_idx
          ts_ns_idx := ts_ns_idx }

/-! ## Decoded DI events

`tokens_to_event` produces a dict of best-effort-typed values; any field may
be `None`.  The order books consume such dicts, so we model the decoded event
directly as a record of optional fields. -/

/-- A decoded DI event (the dict built by `tokens_to_event`). -/
structure DIEvent where
  md_update_action : Option Int := none
  entry_type : Option Int := none
  price_level : Option Int := none
  security_id : Option Int := none
  price : Option ℚ := none
  size : Option Int := none
  ts_ns : Option Int := none
deriving DecidableEq, Repr

/-! ## Python dict operations

`MultiLevelState` keeps `level -> (price, size)` Python dicts.  We model them
as association lists with unique keys: lookup finds the entry for a key,
assignment replaces in place or appends, `del` removes the key. -/

/-- Python `d.get(k)` on a level map. -/
def dictGet (k : Int) : List (Int × ℚ × Int) → Option (ℚ × Int)
  | [] => none
  | (k', v) :: rest => if k' = k then some v else dictGet k rest

/-- Python `d[k] = v` on a level map (replace in place, else append). -/
def dictSet (k : Int) (v : ℚ × Int) : List (Int × ℚ × Int) → List (Int × ℚ × Int)
  | [] => [(k, v)]
  | (k', v') :: rest =>
    if k' = k then (k, v) :: rest else (k', v') :: dictSet k v rest

/-- Python `del d[k]` on a level map. -/
def dictDel (k : Int) : List (Int × ℚ × Int) → List (Int × ℚ × Int)
  | [] => []
  | (k', v) :: rest =>
    if k' = k then dictDel k rest else (k', v) :: dictDel k rest

/-! ## Multi-level order book (`orderbook_multi.py`) -/

/-- Python `UPDATE_ACTIONS = {0, 1, 5}` as a predicate on the decoded action. -/
def isUpdateAction (act : Option Int) : Bool :=
  act = some 0 ∨ act = some 1 ∨ act = some 5

/-- Python `MultiLevelState`: two level maps and the last-seen timestamp. -/
structure MultiLevelState where
  bids : List (Int × ℚ × Int) := []
  asks : List (Int × ℚ × Int) := []
  ts_ns : Option Int := none
deriving DecidableEq, Repr

/-- One reported level of `MultiLevelState.get_levels_snapshot`. -/
structure LevelEntry where
  level : Int
  price : ℚ
  size : Int
deriving DecidableEq, Repr

/-- Python `MultiLevelState.get_levels_snapshot`: sort the occupied levels of each
side ascending, keep the first `max_levels`, and report each one's
`(level, price, size)`.  Returns `(ts_ns, bids, asks)`. -/
def get_levels_snapshot (s : MultiLevelState) (max_levels : Nat) :
    Option Int × List LevelEntry × List LevelEntry :=
  let bidLevels := (List.insertionSort (· ≤ ·) (s.bids.map Prod.fst)).take max_levels
  let askLevels := (List.insertionSort (· ≤ ·) (s.asks.map Prod.fst)).take max_levels
  ( s.ts_ns
  , bidLevels.filterMap (fun l => (dictGet l s.bids).map (fun pv => ⟨l, pv.1, pv.2⟩))
  , askLevels.filterMap (fun l => (dictGet l s.asks).map (fun pv => ⟨l, pv.1, pv.2⟩)) )

/-- Python `MultiLevelBook`: the mutable state plus the configured `max_levels`. -/
structure MultiLevelBook where
  state : MultiLevelState := {}
  max_levels : Int := 10
deriving DecidableEq, Repr

/-- A fresh `MultiLevelBook(max_levels=n)`. -/
def mkMultiLevelBook (n : Int) : MultiLevelBook := { state := {}, max_levels := n }

/-- The upsert branch of `MultiLevelBook.apply_event` on one side's map:
if both price and size are present and the new pair differs from the stored
one (or the level is absent), store it and report a change. -/
def upsertSide (lvl : Int) (price : Option ℚ) (size : Option Int)
    (m : List (Int × ℚ × Int)) : List (Int × ℚ × Int) × Bool :=
  match price, size with
  | some p, some s =>
    let newEntry : ℚ × Int := (p, s)
    if dictGet lvl m ≠ some newEntry then (dictSet lvl newEntry m, true)
    else (m, false)
  | _, _ => (m, false)

/-- Python `MultiLevelBook.apply_event`.  Returns the updated book and the `changed`
flag.  Faithful to the source: events with a side other than 0/1, an absent
level, or a level greater than `max_levels` return early (before the
timestamp update); otherwise upsert-class actions insert-or-replace, the
delete action removes the level, any other action only refreshes the
timestamp. -/
def MultiLevelBook.apply_event (b : MultiLevelBook) (e : DIEvent) :
    MultiLevelBook × Bool :=
  match e.entry_type, e.price_level with
  | some et, some lvl =>
    if ¬(et = 0 ∨ et = 1) ∨ lvl > b.max_levels then (b, false)
    else
      let st := b.state
      let r : List (Int × ℚ × Int) × List (Int × ℚ × Int) × Bool :=
        if isUpdateAction e.md_update_action then
          if et = 0 then
            let u := upsertSide lvl e.price e.size st.bids
            (u.1, st.asks, u.2)
          else
            let u := upsertSide lvl e.price e.size st.asks
            (st.bids, u.1, u.2)
        else if e.md_update_action = some 2 then
          if et = 0 ∧ (dictGet lvl st.bids).isSome then
            (dictDel lvl st.bids, st.asks, true)
          else if et = 1 ∧ (dictGet lvl st.asks).isSome then
            (st.bids, dictDel lvl st.asks, true)
          else (st.bids, st.asks, false)
        else (st.bids, st.asks, false)
      let ts' := match e.ts_ns with
        | some t => some t
        | none => st.ts_ns
      ({ b with state := { bids := r.1, asks := r.2.1, ts_ns := ts' } }, r.2.2)
  | _, _ => (b, false)

/-- Replay a list of events through a multi-level book. -/
def applyAll (b : MultiLevelBook) (es : List DIEvent) : MultiLevelBook :=
  es.foldl (fun b e => (b.apply_event e).1) b

/-! ## Simple L1 book (`orderbook.py`) -/

/-- Python `L1State`: best bid/ask price and size plus the last-seen timestamp. -/
structure L1State where
  best_bid : Option ℚ := none
  bid_size : Option Int := none
  best_ask : Option ℚ := none
  ask_size : Option Int := none
  ts_ns : Option Int := none
deriving DecidableEq, Repr

/-- Python `L1Book.apply_event`.  Faithful to the source: unknown side or absent or
too-deep level returns early; upsert-class actions overwrite whichever of
price/size is present on the event; the delete action zeroes the side's size
only when it is neither absent nor already zero; the timestamp update follows
the action branches. -/
def L1Book.apply_event (st : L1State) (e : DIEvent) : L1State × Bool :=
  match e.entry_type with
  | none => (st, false)
  | some et =>
    if ¬(et = 0 ∨ et = 1) then (st, false)
    else
      match e.price_level with
      | none => (st, false)
      | some lvl =>
        if lvl > 5 then (st, false)
        else
          let st' :=
            if isUpdateAction e.md_update_action then
              if et = 0 then
                { st with
                  best_bid := match e.price with | some p => some p | none => st.best_bid
                  bid_size := match e.size with | some s => some s | none => st.bid_size }
              else
                { st with
                  best_ask := match e.price with | some p => some p | none => st.best_ask
                  ask_size := match e.size with | some s => some s | none => st.ask_size }
            else if e.md_update_action = some 2 then
              if et = 0 then
                if st.bid_size ≠ none ∧ st.bid_size ≠ some 0 then
                  { st with bid_size := some 0 }
                else st
              else
                if st.ask_size ≠ none ∧ st.ask_size ≠ some 0 then
                  { st with ask_size := some 0 }
                else st
            else st
          let changed :=
            if isUpdateAction e.md_update_action then
              if et = 0 then
                st'.best_bid ≠ st.best_bid ∨ st'.bid_size ≠ st.bid_size
              else
                st'.best_ask ≠ st.best_ask ∨ st'.ask_size ≠ st.ask_size
            else if e.md_update_action = some 2 then
              if et = 0 then st.bid_size ≠ none ∧ st.bid_size ≠ some 0
              else st.ask_size ≠ none ∧ st.ask_size ≠ some 0
            else False
          let st'' := { st' with ts_ns := match e.ts_ns with
            | some t => some t
            | none => st'.ts_ns }
          (st'', changed)

/-- Python `L1Book.snapshot` (the `action` column aside): the four stored L1 fields
plus the last timestamp. -/
def L1Book.snapshot (st : L1State) :
    Option Int × Option ℚ × Option Int × Option ℚ × Option Int :=
  (st.ts_ns, st.best_bid, st.bid_size, st.best_ask, st.ask_size)

/-! ## Per-second metrics (`aggregate_l5.py`, `compute_l5_metrics`)

The function reads the last snapshot row of a `(security, second)` group.
We model the row as the five `(price, size)` column pairs per side; a missing
column reads as `None` exactly like `last_row.get`.  Python float truthiness
(`None` and `0.0` are falsy) is modelled explicitly. -/

/-- The last snapshot row of a one-second group: level columns
`(bid_price_i, bid_size_i)` and `(ask_price_i, ask_size_i)` for `i = 1..5`
at list positions `0..4`. -/
structure L5Row where
  bid : List (Option ℚ × Option Int) := []
  ask : List (Option ℚ × Option Int) := []
deriving DecidableEq, Repr

/-- Python `x or 0` applied to an optional size column. -/
def sizeOr0 (v : Option Int) : Int := v.getD 0

/-- The L5 volume loop of `compute_l5_metrics`: for levels 1..5, a level
contributes to the side's total volume and price-weighted sum iff its price
is truthy (present and nonzero) and its size is positive.  Returns
`(total_bid_volume, total_ask_volume, weighted_bid_price, weighted_ask_price)`. -/
def l5Volumes (r : L5Row) : Int × Int × ℚ × ℚ :=
  (List.range 5).foldl
    (fun acc i =>
      let (tbv, tav, wbp, wap) := acc
      let (bp, bsz) := r.bid.getD i (none, none)
      let (ap, asz) := r.ask.getD i (none, none)
      let bsz := sizeOr0 bsz
      let asz := sizeOr0 asz
      let (tbv, wbp) :=
        match bp with
        | some p => if p ≠ 0 ∧ bsz > 0 then (tbv + bsz, wbp + p * bsz) else (tbv, wbp)
        | none => (tbv, wbp)
      let (tav, wap) :=
        match ap with
        | some p => if p ≠ 0 ∧ asz > 0 then (tav + asz, wap + p * asz) else (tav, wap)
        | none => (tav, wap)
      (tbv, tav, wbp, wap))
    (0, 0, 0, 0)

/-- The metric fields produced by `compute_l5_metrics`. -/
structure L5Metrics where
  best_bid : Option ℚ
  best_ask : Option ℚ
  bid_size_1 : Int
  ask_size_1 : Int
  spread_abs : Option ℚ
  spread_rel : Option ℚ
  midprice : Option ℚ
  imbalance_l1 : Option ℚ
  microprice_l1 : Option ℚ
  total_bid_volume : Int
  total_ask_volume : Int
  avg_bid_price : Option ℚ
  avg_ask_price : Option ℚ
  imbalance_l5 : Option ℚ
  microprice_l5 : Option ℚ
  depth_ratio : Option ℚ
deriving DecidableEq, Repr

/-- Python `compute_l5_metrics` (the per-group metric computation). -/
def compute_l5_metrics (r : L5Row) : L5Metrics :=
  let bb := (r.bid.getD 0 (none, none)).1
  let ba := (r.ask.getD 0 (none, none)).1
  let bs1 : Int := sizeOr0 (r.bid.getD 0 (none, none)).2
  let as1 : Int := sizeOr0 (r.ask.getD 0 (none, none)).2
  let vols := l5Volumes r
  let tbv := vols.1
  let tav := vols.2.1
  let wbp := vols.2.2.1
  let wap := vols.2.2.2
  let avg_bid_price : Option ℚ :=
    if tbv > 0 then some (wbp / (tbv : ℚ))
    else match bb with
      | some b => if b ≠ 0 then some b else none
      | none => none
  let avg_ask_price : Option ℚ :=
    if tav > 0 then some (wap / (tav : ℚ))
    else match ba with
      | some a => if a ≠ 0 then some a else none
      | none => none
  let spread_abs : Option ℚ :=
    match bb, ba with
    | some b, some a => if b ≠ 0 ∧ a ≠ 0 then some (a - b) else none
    | _, _ => none
  let midprice : Option ℚ :=
    match bb, ba with
    | some b, some a => if b ≠ 0 ∧ a ≠ 0 then some ((a + b) / 2) else none
    | _, _ => none
  let spread_rel : Option ℚ :=
    match spread_abs, midprice with
    | some sa, some mp => if sa ≠ 0 ∧ mp ≠ 0 then some (sa / mp) else none
    | _, _ => none
  let imbalance_l1 : Option ℚ :=
    if bs1 + as1 > 0 then some (((bs1 : ℚ) - (as1 : ℚ)) / ((bs1 : ℚ) + (as1 : ℚ)))
    else none
  let imbalance_l5 : Option ℚ :=
    if tbv + tav > 0 then some (((tbv : ℚ) - (tav : ℚ)) / ((tbv : ℚ) + (tav : ℚ)))
    else none
  let microprice_l1 : Option ℚ :=
    match bb, ba with
    | some b, some a =>
      if b ≠ 0 ∧ a ≠ 0 ∧ bs1 + as1 > 0 then
        some ((a * (bs1 : ℚ) + b * (as1 : ℚ)) / ((bs1 : ℚ) + (as1 : ℚ)))
      else midprice
    | _, _ => midprice
  let microprice_l5 : Option ℚ :=
    match avg_bid_price, avg_ask_price with
    | some avb, some ava =>
      if tbv + tav > 0 then
        some ((ava * (tbv : ℚ) + avb * (tav : ℚ)) / ((tbv : ℚ) + (tav : ℚ)))
      else midprice
    | _, _ => midprice
  let depth_ratio : Option ℚ :=
    if tbv > 0 then some ((tav : ℚ) / (tbv : ℚ)) else none
  { best_bid := bb
    best_ask := ba
    bid_size_1 := bs1
    ask_size_1 := as1
    spread_abs := spread_abs
    spread_rel := spread_rel
    midprice := midprice
    imbalance_l1 := imbalance_l1
    microprice_l1 := microprice_l1
    total_bid_volume := tbv
    total_ask_volume := tav
    avg_bid_price := avg_bid_price
    avg_ask_price := avg_ask_price
    imbalance_l5 := imbalance_l5
    microprice_l5 := microprice_l5
    depth_ratio := depth_ratio }

/-! ## Lemmas about the dict operations and `apply_event` -/

theorem dictGet_dictDel_self (k : Int) (m : List (Int × ℚ × Int)) :
    dictGet k (dictDel k m) = none := by
  induction m with
  | nil => rfl
  | cons p rest ih =>
    obtain ⟨k', v⟩ := p
    by_cases h : k' = k
    · simpa [dictDel, h] using ih
    · simpa [dictDel, dictGet, h] using ih

theorem dictGet_dictSet_self (k : Int) (v : ℚ × Int) (m : List (Int × ℚ × Int)) :
    dictGet k (dictSet k v m) = some v := by
  induction m with
  | nil => simp [dictSet, dictGet]
  | cons p rest ih =>
    obtain ⟨k', v'⟩ := p
    by_cases h : k' = k
    · simp [dictSet, dictGet, h]
    · simpa [dictSet, dictGet, h] using ih

theorem mem_keys_dictSet (k : Int) (v : ℚ × Int) (m : List (Int × ℚ × Int))
    (l : Int) (hl : l ∈ (dictSet k v m).map Prod.fst) :
    l = k ∨ l ∈ m.map Prod.fst := by
  induction m with
  | nil => simpa [dictSet] using hl
  | cons p rest ih =>
    obtain ⟨k', v'⟩ := p
    by_cases h : k' = k
    · simp only [dictSet, if_pos h, List.map_cons, List.mem_cons] at hl
      rcases hl with hl | hl
      · exact Or.inl hl
      · exact Or.inr (by simp [hl])
    · simp only [dictSet, if_neg h, List.map_cons, List.mem_cons] at hl
      rcases hl with hl | hl
      · exact Or.inr (by simp [hl])
      · rcases ih hl with h1 | h1
        · exact Or.inl h1
        · exact Or.inr (by simp [h1])

theorem mem_keys_dictDel (k : Int) (m : List (Int × ℚ × Int))
    (l : Int) (hl : l ∈ (dictDel k m).map Prod.fst) :
    l ∈ m.map Prod.fst := by
  induction m with
  | nil => simp [dictDel] at hl
  | cons p rest ih =>
    obtain ⟨k', v'⟩ := p
    by_cases h : k' = k
    · simp only [dictDel, if_pos h] at hl
      exact List.mem_cons_of_mem _ (ih hl)
    · simp only [dictDel, if_neg h, List.map_cons, List.mem_cons] at hl
      rcases hl with hl | hl
      · exact List.mem_cons.2 (Or.inl hl)
      · exact List.mem_cons_of_mem _ (ih hl)

theorem upsertSide_keys (lvl : Int) (p : Option ℚ) (s : Option Int)
    (m : List (Int × ℚ × Int)) (l : Int)
    (hl : l ∈ (upsertSide lvl p s m).1.map Prod.fst) :
    l = lvl ∨ l ∈ m.map Prod.fst := by
  unfold upsertSide at hl
  rcases p with _ | pv <;> rcases s with _ | sv <;> dsimp only at hl
  · exact Or.inr hl
  · exact Or.inr hl
  · exact Or.inr hl
  · split at hl
    · exact mem_keys_dictSet _ _ _ _ hl
    · exact Or.inr hl

/-- An event whose level exceeds the configured maximum depth is rejected as
a strict no-op: the book (timestamp included) is returned unchanged with
`changed = false`. -/
theorem apply_event_reject_deep (b : MultiLevelBook) (e : DIEvent) (lvl : Int)
    (hlvl : e.price_level = some lvl) (hgt : lvl > b.max_levels) :
    b.apply_event e = (b, false) := by
  unfold MultiLevelBook.apply_event
  rcases het : e.entry_type with _ | et
  · rw [hlvl]
  · rw [hlvl]
    exact if_pos (Or.inr hgt)

/-- Python `apply_event` never changes the configured depth. -/
theorem apply_event_max_levels (b : MultiLevelBook) (e : DIEvent) :
    (b.apply_event e).1.max_levels = b.max_levels := by
  unfold MultiLevelBook.apply_event
  rcases e.entry_type with _ | et <;> rcases e.price_level with _ | lvl <;> simp
  split <;> rfl

/-- Every level stored by one `apply_event` step is either an old key or the
event's own (validated) level, so keys never exceed the configured depth. -/
theorem apply_event_keys_le (b : MultiLevelBook) (e : DIEvent)
    (hb : ∀ l ∈ b.state.bids.map Prod.fst, l ≤ b.max_levels)
    (ha : ∀ l ∈ b.state.asks.map Prod.fst, l ≤ b.max_levels) :
    (∀ l ∈ (b.apply_event e).1.state.bids.map Prod.fst, l ≤ b.max_levels)
    ∧ (∀ l ∈ (b.apply_event e).1.state.asks.map Prod.fst, l ≤ b.max_levels) := by
  unfold MultiLevelBook.apply_event
  rcases e.entry_type with _ | et <;> rcases e.price_level with _ | lvl <;> dsimp only
  · exact ⟨hb, ha⟩
  · exact ⟨hb, ha⟩
  · exact ⟨hb, ha⟩
  · by_cases hcond : ¬(et = 0 ∨ et = 1) ∨ lvl > b.max_levels
    · rw [if_pos hcond]
      exact ⟨hb, ha⟩
    · rw [if_neg hcond]
      push_neg at hcond
      have hle : lvl ≤ b.max_levels := hcond.2
      constructor <;> intro l hl <;> dsimp only at hl
      · split at hl
        · split at hl
          · dsimp only at hl
            rcases upsertSide_keys _ _ _ _ _ hl with h | h
            · omega
            · exact hb l h
          · dsimp only at hl
            exact hb l hl
        · split at hl
          · split at hl
            · dsimp only at hl
              exact hb l (mem_keys_dictDel _ _ _ hl)
            · split at hl
              · dsimp only at hl
                exact hb l hl
              · dsimp only at hl
                exact hb l hl
          · dsimp only at hl
            exact hb l hl
      · split at hl
        · split at hl
          · dsimp only at hl
            exact ha l hl
          · dsimp only at hl
            rcases upsertSide_keys _ _ _ _ _ hl with h | h
            · omega
            · exact ha l h
        · split at hl
          · split at hl
            · dsimp only at hl
              exact ha l hl
            · split at hl
              · dsimp only at hl
                exact ha l (mem_keys_dictDel _ _ _ hl)
              · dsimp only at hl
                exact ha l hl
          · dsimp only at hl
            exact ha l hl

/-- Unfolding of `apply_event` for an event that passes the side/level
validity check. -/
theorem apply_event_valid_eq (b : MultiLevelBook) (e : DIEvent) (et lvl : Int)
    (het : e.entry_type = some et) (hside : et = 0 ∨ et = 1)
    (hlvl : e.price_level = some lvl) (hle : lvl ≤ b.max_levels) :
    b.apply_event e =
      (let st := b.state
       let r : List (Int × ℚ × Int) × List (Int × ℚ × Int) × Bool :=
         if isUpdateAction e.md_update_action then
           if et = 0 then
             let u := upsertSide lvl e.price e.size st.bids
             (u.1, st.asks, u.2)
           else
             let u := upsertSide lvl e.price e.size st.asks
             (st.bids, u.1, u.2)
         else if e.md_update_action = some 2 then
           if et = 0 ∧ (dictGet lvl st.bids).isSome then
             (dictDel lvl st.bids, st.asks, true)
           else if et = 1 ∧ (dictGet lvl st.asks).isSome then
             (st.bids, dictDel lvl st.asks, true)
           else (st.bids, st.asks, false)
         else (st.bids, st.asks, false)
       let ts' := match e.ts_ns with
         | some t => some t
         | none => st.ts_ns
       ({ b with state := { bids := r.1, asks := r.2.1, ts_ns := ts' } }, r.2.2)) := by
  unfold MultiLevelBook.apply_event
  rw [het, hlvl]
  dsimp only
  rw [if_neg (by push_neg; exact ⟨hside, by omega⟩)]

/-! ## Chunked snapshot pipeline (`parse_and_l5.py`, `main`)

Snapshots are buffered; each flushed chunk is sorted by
`(ts_ns, security_id)` before being written.  If more than `BATCH_SIZE`
chunks were written, consecutive batches of `BATCH_SIZE` chunks are each
concatenated and sorted, and the batch results are concatenated and sorted
once more; otherwise all chunks are concatenated and sorted directly.
`sort_values(['ts_ns', 'security_id'])` is modelled as a stable sort by that
lexicographic key. -/

/-- One snapshot row: the sort key `(ts_ns, security_id)` plus the remaining
flattened columns, which the sort never inspects. -/
structure Snap where
  ts_ns : Int
  security_id : Int
  payload : List (Option ℚ) := []
deriving DecidableEq, Repr

/-- The `(ts_ns, security_id)` lexicographic sort key order. -/
def snapLE (a b : Snap) : Prop :=
  a.ts_ns < b.ts_ns ∨ (a.ts_ns = b.ts_ns ∧ a.security_id ≤ b.security_id)

instance snapLE.dec : DecidableRel snapLE := fun a b => by
  unfold snapLE; infer_instance

/-- Python `df.sort_values(['ts_ns', 'security_id'])`, modelled as a stable sort. -/
def sortSnaps (l : List Snap) : List Snap := List.insertionSort snapLE l

/-- Python `flush_snapshots_to_disk`: a chunk is sorted when it is written. -/
def flushChunk (buf : List Snap) : List Snap := sortSnaps buf

/-- The batch slicing `chunk_files[batch_start:batch_start+BATCH_SIZE]` for
`batch_start in range(0, len(chunk_files), BATCH_SIZE)`: consecutive batches
of `B` chunks (`B = B' + 1` in the recursive pattern; the Python constant is
20, and the slicing is never used with step 0). -/
def toBatches : Nat → List α → List (List α)
  | _, [] => []
  | 0, l => [l]
  | B' + 1, x :: xs => (x :: xs.take B') :: toBatches (B' + 1) (xs.drop B')
termination_by _ l => l.length
decreasing_by simp [List.length_drop]; omega

/-- The merge phase of `main`: batched concatenate-and-sort when more than
`B` chunks exist, then a final concatenate-and-sort of the batch results;
a direct concatenate-and-sort otherwise. -/
def mergeChunks (B : Nat) (cs : List (List Snap)) : List Snap :=
  if B < cs.length then
    sortSnaps ((toBatches B cs).map (fun batch => sortSnaps batch.flatten)).flatten
  else
    sortSnaps cs.flatten

/-- The full chunk pipeline applied to the flushed buffers: sort each chunk
at flush time, then merge. -/
def chunkPipeline (B : Nat) (buffers : List (List Snap)) : List Snap :=
  mergeChunks B (buffers.map flushChunk)

/-! ## Claim theorems: the multi-level book (C3, C4, C5, C8) -/

/-- Replaying events preserves the configured depth and the bound on stored
level keys. -/
theorem applyAll_inv (es : List DIEvent) : ∀ (b : MultiLevelBook),
    (∀ l ∈ b.state.bids.map Prod.fst, l ≤ b.max_levels) →
    (∀ l ∈ b.state.asks.map Prod.fst, l ≤ b.max_levels) →
    (applyAll b es).max_levels = b.max_levels ∧
      (∀ l ∈ (applyAll b es).state.bids.map Prod.fst, l ≤ b.max_levels) ∧
      (∀ l ∈ (applyAll b es).state.asks.map Prod.fst, l ≤ b.max_levels) := by
  induction es with
  | nil => exact fun b hb ha => ⟨rfl, hb, ha⟩
  | cons e es ih =>
    intro b hb ha
    have hk := apply_event_keys_le b e hb ha
    have hm := apply_event_max_levels b e
    have hstep := ih (b.apply_event e).1
      (by rw [hm]; exact hk.1) (by rw [hm]; exact hk.2)
    have heq : applyAll b (e :: es) = applyAll (b.apply_event e).1 es := rfl
    rw [heq]
    refine ⟨hstep.1.trans hm, ?_, ?_⟩
    · intro l hl
      have := hstep.2.1 l hl
      omega
    · intro l hl
      have := hstep.2.2 l hl
      omega

/-- An upsert event at level 1 for a book configured with `max_levels = 1`. -/
def c3DeepUpsert : DIEvent :=
  { md_update_action := some 0, entry_type := some 0, price_level := some 1,
    price := some 99, size := some 5, ts_ns := some 1001 }

/-- An upsert event at level 0. -/
def c3BestUpsert : DIEvent :=
  { md_update_action := some 0, entry_type := some 0, price_level := some 0,
    price := some 100, size := some 10, ts_ns := some 1000 }

/-- C3 counterexample: with configured maximum depth 1, the guard
`level > max_levels` accepts level 1 as well as level 0, so two distinct
ranks end up occupied on the bid side — more than the claimed "at most N
distinct ranks".  Both events are accepted with `changed = true`. -/
theorem claim_C3_counterexample :
    ((mkMultiLevelBook 1).apply_event c3BestUpsert).2 = true
    ∧ ((applyAll (mkMultiLevelBook 1) [c3BestUpsert]).apply_event c3DeepUpsert).2 = true
    ∧ (applyAll (mkMultiLevelBook 1) [c3BestUpsert, c3DeepUpsert]).state.bids.map Prod.fst
        = [0, 1]
    ∧ ¬((applyAll (mkMultiLevelBook 1) [c3BestUpsert, c3DeepUpsert]).state.bids.map
          Prod.fst).length ≤ 1 := by
  refine ⟨by decide, by decide, by decide, by decide⟩

/-- C3 amended: every level key ever stored by a book configured with depth
`N` is at most `N` (so with level 0 best, ranks `0..N` — at most `N + 1`
distinct nonnegative ranks — can be occupied), and an event whose level
strictly exceeds the configured depth is rejected as a no-op with
`changed = false`. -/
theorem claim_C3_amended (N : Int) (es : List DIEvent)
    (b : MultiLevelBook) (e : DIEvent) (lvl : Int)
    (hlvl : e.price_level = some lvl) (hgt : lvl > b.max_levels) :
    (∀ l ∈ (applyAll (mkMultiLevelBook N) es).state.bids.map Prod.fst, l ≤ N)
    ∧ (∀ l ∈ (applyAll (mkMultiLevelBook N) es).state.asks.map Prod.fst, l ≤ N)
    ∧ b.apply_event e = (b, false) := by
  have hinv := applyAll_inv es (mkMultiLevelBook N)
    (by intro l hl; simp [mkMultiLevelBook] at hl)
    (by intro l hl; simp [mkMultiLevelBook] at hl)
  exact ⟨hinv.2.1, hinv.2.2, apply_event_reject_deep b e lvl hlvl hgt⟩

/-- An upsert event at level 3, too deep for a depth-2 book. -/
def c3TooDeep : DIEvent :=
  { md_update_action := some 0, entry_type := some 0, price_level := some 3,
    price := some 98, size := some 1, ts_ns := some 1002 }

theorem claim_C3_amended_witness :
    (c3TooDeep.price_level = some 3 ∧ (3 : Int) > (mkMultiLevelBook 2).max_levels)
    ∧ ((∀ l ∈ (applyAll (mkMultiLevelBook 2) [c3BestUpsert]).state.bids.map Prod.fst, l ≤ 2)
       ∧ (∀ l ∈ (applyAll (mkMultiLevelBook 2) [c3BestUpsert]).state.asks.map Prod.fst, l ≤ 2)
       ∧ (mkMultiLevelBook 2).apply_event c3TooDeep = (mkMultiLevelBook 2, false)) :=
  ⟨⟨rfl, by decide⟩,
    claim_C3_amended 2 [c3BestUpsert] (mkMultiLevelBook 2) c3TooDeep 3 rfl (by decide)⟩

/-- An event with an invalid side (entry type 5) that carries a timestamp. -/
def c4BadSide : DIEvent := { entry_type := some 5, ts_ns := some 123 }

/-- C4 counterexample: an event rejected for an invalid side returns before
the timestamp update, so a carried timestamp is NOT recorded, contradicting
the claim that the last-seen timestamp updates for rejected events too. -/
theorem claim_C4_counterexample :
    c4BadSide.ts_ns = some 123
    ∧ ((mkMultiLevelBook 10).apply_event c4BadSide).2 = false
    ∧ ((mkMultiLevelBook 10).apply_event c4BadSide).1.state.ts_ns = none := by
  refine ⟨rfl, by decide, by decide⟩

/-- C4 amended: for every event that passes the side/level validity check
(side 0 or 1, level present and within depth), a carried timestamp is always
recorded, regardless of the action and of whether `changed` is true; events
rejected by the validity check leave the whole book, timestamp included,
unchanged. -/
theorem claim_C4_amended (b : MultiLevelBook) (e : DIEvent) (et lvl t : Int)
    (het : e.entry_type = some et) (hside : et = 0 ∨ et = 1)
    (hlvl : e.price_level = some lvl) (hle : lvl ≤ b.max_levels)
    (hts : e.ts_ns = some t) :
    (b.apply_event e).1.state.ts_ns = some t := by
  rw [apply_event_valid_eq b e et lvl het hside hlvl hle]
  dsimp only
  rw [hts]

/-- A delete event carrying a timestamp for a depth-10 book. -/
def c4Delete : DIEvent :=
  { md_update_action := some 2, entry_type := some 1, price_level := some 0,
    ts_ns := some 777 }

theorem claim_C4_amended_witness :
    (c4Delete.entry_type = some 1 ∧ ((1 : Int) = 0 ∨ (1 : Int) = 1)
      ∧ c4Delete.price_level = some 0 ∧ (0 : Int) ≤ (mkMultiLevelBook 10).max_levels
      ∧ c4Delete.ts_ns = some 777)
    ∧ ((mkMultiLevelBook 10).apply_event c4Delete).1.state.ts_ns = some 777 :=
  ⟨⟨rfl, Or.inr rfl, rfl, by decide, rfl⟩,
    claim_C4_amended (mkMultiLevelBook 10) c4Delete 1 0 777 rfl (Or.inr rfl) rfl
      (by decide) rfl⟩

/-- Python `Upsert(level=2, bid, price=10, size=5)`. -/
def c5Upsert : DIEvent :=
  { md_update_action := some 0, entry_type := some 0, price_level := some 2,
    price := some 10, size := some 5, ts_ns := some 1 }

/-- Python `Delete(level=2, bid)`. -/
def c5Delete : DIEvent :=
  { md_update_action := some 2, entry_type := some 0, price_level := some 2,
    ts_ns := some 2 }

/-- C5: a delete on a valid side and in-depth level removes the level entry
from that side's map entirely — the level becomes absent — and `changed` is
true iff an entry existed there; and in the concrete scenario
Upsert(level=2, bid, 10, 5) then Delete(level=2, bid) on a fresh depth-5
book, the subsequent snapshot holds no entry for level 2 on the bid side. -/
theorem claim_C5_delete_removes_level :
    (∀ (b : MultiLevelBook) (e : DIEvent) (et lvl : Int),
      e.md_update_action = some 2 → e.entry_type = some et → (et = 0 ∨ et = 1) →
      e.price_level = some lvl → lvl ≤ b.max_levels →
      dictGet lvl (if et = 0 then (b.apply_event e).1.state.bids
                   else (b.apply_event e).1.state.asks) = none
      ∧ ((b.apply_event e).2 = true ↔
          (dictGet lvl (if et = 0 then b.state.bids else b.state.asks)).isSome = true))
    ∧ ((get_levels_snapshot
          (applyAll (mkMultiLevelBook 5) [c5Upsert, c5Delete]).state 5).2.1.filter
        (fun en => en.level = 2) = []) := by
  constructor
  · intro b e et lvl hact het hside hlvl hle
    rw [apply_event_valid_eq b e et lvl het hside hlvl hle]
    dsimp only
    rw [hact]
    have hupd : isUpdateAction (some 2) = false := by decide
    rw [hupd]
    rcases hside with rfl | rfl
    · by_cases hmem : (dictGet lvl b.state.bids).isSome = true
      · simp [hmem, dictGet_dictDel_self]
      · have hnone : dictGet lvl b.state.bids = none := by
          cases hdg : dictGet lvl b.state.bids with
          | none => rfl
          | some v => exact absurd (by simp [hdg]) hmem
        simp [hmem, hnone]
    · by_cases hmem : (dictGet lvl b.state.asks).isSome = true
      · simp [hmem, dictGet_dictDel_self]
      · have hnone : dictGet lvl b.state.asks = none := by
          cases hdg : dictGet lvl b.state.asks with
          | none => rfl
          | some v => exact absurd (by simp [hdg]) hmem
        simp [hmem, hnone]
  · decide

theorem claim_C5_delete_removes_level_witness :
    (c5Delete.md_update_action = some 2 ∧ c5Delete.entry_type = some 0
      ∧ ((0 : Int) = 0 ∨ (0 : Int) = 1) ∧ c5Delete.price_level = some 2
      ∧ (2 : Int) ≤ (applyAll (mkMultiLevelBook 5) [c5Upsert]).max_levels)
    ∧ (dictGet 2 (if (0 : Int) = 0 then
          ((applyAll (mkMultiLevelBook 5) [c5Upsert]).apply_event c5Delete).1.state.bids
        else ((applyAll (mkMultiLevelBook 5) [c5Upsert]).apply_event c5Delete).1.state.asks)
          = none
      ∧ (((applyAll (mkMultiLevelBook 5) [c5Upsert]).apply_event c5Delete).2 = true ↔
          (dictGet 2 (if (0 : Int) = 0 then
              (applyAll (mkMultiLevelBook 5) [c5Upsert]).state.bids
            else (applyAll (mkMultiLevelBook 5) [c5Upsert]).state.asks)).isSome = true)) :=
  ⟨⟨rfl, rfl, Or.inl rfl, rfl, by decide⟩,
    claim_C5_delete_removes_level.1 (applyAll (mkMultiLevelBook 5) [c5Upsert]) c5Delete 0 2
      rfl rfl (Or.inl rfl) rfl (by decide)⟩

/-- C8: applying an identical valid upsert twice leaves `changed = false` on
the second apply and the level maps unchanged from the first apply; the
first apply reports `changed = true` whenever the stored pair at that level
differed from (or was absent at) the event's pair. -/
theorem claim_C8_upsert_idempotent (b : MultiLevelBook) (e : DIEvent)
    (et lvl : Int) (p : ℚ) (s : Int)
    (hact : isUpdateAction e.md_update_action = true)
    (het : e.entry_type = some et) (hside : et = 0 ∨ et = 1)
    (hlvl : e.price_level = some lvl) (hle : lvl ≤ b.max_levels)
    (hp : e.price = some p) (hs : e.size = some s) :
    ((b.apply_event e).1.apply_event e).2 = false
    ∧ ((b.apply_event e).1.apply_event e).1.state.bids = (b.apply_event e).1.state.bids
    ∧ ((b.apply_event e).1.apply_event e).1.state.asks = (b.apply_event e).1.state.asks
    ∧ (dictGet lvl (if et = 0 then b.state.bids else b.state.asks) ≠ some (p, s) →
        (b.apply_event e).2 = true) := by
  have h1 := apply_event_valid_eq b e et lvl het hside hlvl hle
  have hle1 : lvl ≤ (b.apply_event e).1.max_levels := by
    rw [apply_event_max_levels]; exact hle
  have h2 := apply_event_valid_eq (b.apply_event e).1 e et lvl het hside hlvl hle1
  rcases hside with rfl | rfl
  · have hbids1 : (b.apply_event e).1.state.bids =
        (upsertSide lvl e.price e.size b.state.bids).1 := by
      rw [h1]; dsimp only; rw [hact]; simp
    have hasks1 : (b.apply_event e).1.state.asks = b.state.asks := by
      rw [h1]; dsimp only; rw [hact]; simp
    have hch1 : (b.apply_event e).2 = (upsertSide lvl e.price e.size b.state.bids).2 := by
      rw [h1]; dsimp only; rw [hact]; simp
    have hget : dictGet lvl (b.apply_event e).1.state.bids = some (p, s) := by
      rw [hbids1]
      unfold upsertSide
      rw [hp, hs]
      dsimp only
      split
      · exact dictGet_dictSet_self lvl (p, s) b.state.bids
      · rename_i hne
        push_neg at hne
        exact hne
    have hup2 : upsertSide lvl e.price e.size (b.apply_event e).1.state.bids =
        ((b.apply_event e).1.state.bids, false) := by
      unfold upsertSide
      rw [hp, hs]
      dsimp only
      rw [if_neg (by rw [hget]; simp)]
    refine ⟨?_, ?_, ?_, ?_⟩
    · rw [h2]; dsimp only; rw [hact]; simp [hup2]
    · rw [h2]; dsimp only; rw [hact]; simp [hup2]
    · rw [h2]; dsimp only; rw [hact]; simp [hasks1]
    · intro hne
      rw [hch1]
      unfold upsertSide
      rw [hp, hs]
      dsimp only
      rw [if_pos (by simpa using hne)]
  · have hasks1 : (b.apply_event e).1.state.asks =
        (upsertSide lvl e.price e.size b.state.asks).1 := by
      rw [h1]; dsimp only; rw [hact]; simp
    have hbids1 : (b.apply_event e).1.state.bids = b.state.bids := by
      rw [h1]; dsimp only; rw [hact]; simp
    have hch1 : (b.apply_event e).2 = (upsertSide lvl e.price e.size b.state.asks).2 := by
      rw [h1]; dsimp only; rw [hact]; simp
    have hget : dictGet lvl (b.apply_event e).1.state.asks = some (p, s) := by
      rw [hasks1]
      unfold upsertSide
      rw [hp, hs]
      dsimp only
      split
      · exact dictGet_dictSet_self lvl (p, s) b.state.asks
      · rename_i hne
        push_neg at hne
        exact hne
    have hup2 : upsertSide lvl e.price e.size (b.apply_event e).1.state.asks =
        ((b.apply_event e).1.state.asks, false) := by
      unfold upsertSide
      rw [hp, hs]
      dsimp only
      rw [if_neg (by rw [hget]; simp)]
    refine ⟨?_, ?_, ?_, ?_⟩
    · rw [h2]; dsimp only; rw [hact]; simp [hup2]
    · rw [h2]; dsimp only; rw [hact]; simp [hbids1]
    · rw [h2]; dsimp only; rw [hact]; simp [hup2]
    · intro hne
      rw [hch1]
      unfold upsertSide
      rw [hp, hs]
      dsimp only
      rw [if_pos (by simpa using hne)]

/-- An upsert event at level 1: bid, price 20, size 4. -/
def c8Upsert : DIEvent :=
  { md_update_action := some 1, entry_type := some 0, price_level := some 1,
    price := some 20, size := some 4, ts_ns := some 9 }

theorem claim_C8_upsert_idempotent_witness :
    (isUpdateAction c8Upsert.md_update_action = true ∧ c8Upsert.entry_type = some 0
      ∧ ((0 : Int) = 0 ∨ (0 : Int) = 1) ∧ c8Upsert.price_level = some 1
      ∧ (1 : Int) ≤ (mkMultiLevelBook 5).max_levels
      ∧ c8Upsert.price = some 20 ∧ c8Upsert.size = some 4)
    ∧ ((((mkMultiLevelBook 5).apply_event c8Upsert).1.apply_event c8Upsert).2 = false
      ∧ (((mkMultiLevelBook 5).apply_event c8Upsert).1.apply_event c8Upsert).1.state.bids
          = ((mkMultiLevelBook 5).apply_event c8Upsert).1.state.bids
      ∧ (((mkMultiLevelBook 5).apply_event c8Upsert).1.apply_event c8Upsert).1.state.asks
          = ((mkMultiLevelBook 5).apply_event c8Upsert).1.state.asks
      ∧ (dictGet 1 (if (0 : Int) = 0 then (mkMultiLevelBook 5).state.bids
            else (mkMultiLevelBook 5).state.asks) ≠ some (20, 4) →
          ((mkMultiLevelBook 5).apply_event c8Upsert).2 = true)) :=
  ⟨⟨rfl, rfl, Or.inl rfl, rfl, by decide, rfl, rfl⟩,
    claim_C8_upsert_idempotent (mkMultiLevelBook 5) c8Upsert 0 1 20 4
      rfl rfl (Or.inl rfl) rfl (by decide) rfl rfl⟩

/-! ## Claim theorems: the simple L1 book (C10) -/

/-- An L1 state with a stored bid price but no recorded bid size. -/
def c10State : L1State := { best_bid := some 100, bid_size := none }

/-- A bid-side delete event at a valid level. -/
def c10Delete : DIEvent :=
  { md_update_action := some 2, entry_type := some 0, price_level := some 0,
    ts_ns := some 5 }

/-- C10 counterexample: a delete on a valid side whose prior size is absent
leaves the size absent — it is NOT set to 0 — so the subsequent snapshot
reports no size rather than size 0. -/
theorem claim_C10_counterexample :
    (L1Book.apply_event c10State c10Delete).1.bid_size = none
    ∧ (L1Book.apply_event c10State c10Delete).1.bid_size ≠ some 0
    ∧ (L1Book.apply_event c10State c10Delete).2 = false
    ∧ (L1Book.snapshot (L1Book.apply_event c10State c10Delete).1).2.2.1 = none := by
  refine ⟨by decide, by decide, by decide, by decide⟩

/-- C10 amended: a delete on a valid side and valid level leaves both stored
prices unchanged and the other side's size unchanged; the deleted side's
size becomes 0 exactly when it was present (an absent size stays absent, an
already-zero size stays 0); `changed` is true iff the prior size was neither
absent nor 0. -/
theorem claim_C10_amended (st : L1State) (e : DIEvent) (et lvl : Int)
    (hact : e.md_update_action = some 2) (het : e.entry_type = some et)
    (hside : et = 0 ∨ et = 1) (hlvl : e.price_level = some lvl) (hle : lvl ≤ 5) :
    (L1Book.apply_event st e).1.best_bid = st.best_bid
    ∧ (L1Book.apply_event st e).1.best_ask = st.best_ask
    ∧ (if et = 0 then
        (L1Book.apply_event st e).1.bid_size = st.bid_size.map (fun _ => 0)
        ∧ (L1Book.apply_event st e).1.ask_size = st.ask_size
        ∧ ((L1Book.apply_event st e).2 = true ↔
            (st.bid_size ≠ none ∧ st.bid_size ≠ some 0))
      else
        (L1Book.apply_event st e).1.ask_size = st.ask_size.map (fun _ => 0)
        ∧ (L1Book.apply_event st e).1.bid_size = st.bid_size
        ∧ ((L1Book.apply_event st e).2 = true ↔
            (st.ask_size ≠ none ∧ st.ask_size ≠ some 0))) := by
  unfold L1Book.apply_event
  rw [het, hlvl, hact]
  dsimp only
  rw [if_neg (not_not_intro hside), if_neg (by omega)]
  have hupd : isUpdateAction (some 2) = false := by decide
  rw [hupd]
  rcases hside with rfl | rfl
  · rcases hbs : st.bid_size with _ | n
    · simp [hbs]
    · by_cases hn : n = 0
      · subst hn
        simp [hbs]
      · simp [hbs, hn]
  · rcases has : st.ask_size with _ | n
    · simp [has]
    · by_cases hn : n = 0
      · subst hn
        simp [has]
      · simp [has, hn]

/-- An L1 state with both sides populated. -/
def c10FullState : L1State :=
  { best_bid := some 100, bid_size := some 7, best_ask := some 101, ask_size := some 3 }

theorem claim_C10_amended_witness :
    (c10Delete.md_update_action = some 2 ∧ c10Delete.entry_type = some 0
      ∧ ((0 : Int) = 0 ∨ (0 : Int) = 1) ∧ c10Delete.price_level = some 0
      ∧ (0 : Int) ≤ 5)
    ∧ ((L1Book.apply_event c10FullState c10Delete).1.best_bid = c10FullState.best_bid
      ∧ (L1Book.apply_event c10FullState c10Delete).1.best_ask = c10FullState.best_ask
      ∧ (if (0 : Int) = 0 then
          (L1Book.apply_event c10FullState c10Delete).1.bid_size
              = c10FullState.bid_size.map (fun _ => 0)
          ∧ (L1Book.apply_event c10FullState c10Delete).1.ask_size = c10FullState.ask_size
          ∧ ((L1Book.apply_event c10FullState c10Delete).2 = true ↔
              (c10FullState.bid_size ≠ none ∧ c10FullState.bid_size ≠ some 0))
        else
          (L1Book.apply_event c10FullState c10Delete).1.ask_size
              = c10FullState.ask_size.map (fun _ => 0)
          ∧ (L1Book.apply_event c10FullState c10Delete).1.bid_size = c10FullState.bid_size
          ∧ ((L1Book.apply_event c10FullState c10Delete).2 = true ↔
              (c10FullState.ask_size ≠ none ∧ c10FullState.ask_size ≠ some 0)))) :=
  ⟨⟨rfl, rfl, Or.inl rfl, rfl, by decide⟩,
    claim_C10_amended c10FullState c10Delete 0 0 rfl rfl (Or.inl rfl) rfl (by decide)⟩

/-! ## Claim theorems: per-second metrics (C6, C7) -/

/-- A crossed-at-parity row: both best prices equal 100 with nonzero sizes. -/
def c6Row : L5Row := { bid := [(some 100, some 5)], ask := [(some 100, some 7)] }

/-- C6 counterexample: with equal best prices, `spread_abs` is `some 0` and
`midprice` is nonzero with both sides present, yet `spread_rel` is null —
Python's `if (spread_abs and midprice)` treats the 0.0 spread as falsy.  The
claim would require `spread_rel = spread_abs / midprice = some 0` here. -/
theorem claim_C6_counterexample :
    (compute_l5_metrics c6Row).best_bid = some 100
    ∧ (compute_l5_metrics c6Row).best_ask = some 100
    ∧ (compute_l5_metrics c6Row).spread_abs = some 0
    ∧ (compute_l5_metrics c6Row).midprice = some 100
    ∧ (compute_l5_metrics c6Row).spread_rel = none := by
  refine ⟨?_, ?_, ?_, ?_, ?_⟩ <;> norm_num [compute_l5_metrics, c6Row]

/-- C6 amended: `spread_rel` equals `spread_abs / midprice` whenever both
are present and nonzero, and is null exactly when `spread_abs` is null or
zero or `midprice` is null or zero (`spread_abs`/`midprice` themselves being
null iff either best price is absent or zero); `imbalance_l1` equals
`(bid_size − ask_size)/(bid_size + ask_size)` whenever that denominator is
positive and is null exactly when it is not. -/
theorem claim_C6_amended (r : L5Row) :
    ((compute_l5_metrics r).spread_rel = none ↔
        ((compute_l5_metrics r).spread_abs = none ∨ (compute_l5_metrics r).spread_abs = some 0
          ∨ (compute_l5_metrics r).midprice = none ∨ (compute_l5_metrics r).midprice = some 0))
    ∧ (∀ sa mp : ℚ, (compute_l5_metrics r).spread_abs = some sa →
        (compute_l5_metrics r).midprice = some mp → sa ≠ 0 → mp ≠ 0 →
        (compute_l5_metrics r).spread_rel = some (sa / mp))
    ∧ ((compute_l5_metrics r).imbalance_l1 = none ↔
        ¬(0 < (compute_l5_metrics r).bid_size_1 + (compute_l5_metrics r).ask_size_1))
    ∧ (0 < (compute_l5_metrics r).bid_size_1 + (compute_l5_metrics r).ask_size_1 →
        (compute_l5_metrics r).imbalance_l1 =
          some ((((compute_l5_metrics r).bid_size_1 : ℚ) - ((compute_l5_metrics r).ask_size_1 : ℚ)) /
                (((compute_l5_metrics r).bid_size_1 : ℚ) + ((compute_l5_metrics r).ask_size_1 : ℚ)))) := by
  dsimp only [compute_l5_metrics]
  have himb : ∀ bs1 as1 : Int,
      ((if bs1 + as1 > 0 then some (((bs1 : ℚ) - (as1 : ℚ)) / ((bs1 : ℚ) + (as1 : ℚ)))
        else none) = none ↔ ¬(0 < bs1 + as1))
      ∧ (0 < bs1 + as1 →
        (if bs1 + as1 > 0 then some (((bs1 : ℚ) - (as1 : ℚ)) / ((bs1 : ℚ) + (as1 : ℚ)))
          else none) = some (((bs1 : ℚ) - (as1 : ℚ)) / ((bs1 : ℚ) + (as1 : ℚ)))) := by
    intro bs1 as1
    constructor
    · split_ifs with h <;> simp [h]
    · intro h
      rw [if_pos h]
  rcases (r.bid.getD 0 (none, none)).1 with _ | b <;>
    rcases (r.ask.getD 0 (none, none)).1 with _ | a <;> dsimp only
  · exact ⟨by simp, by intro sa mp h; simp at h, (himb _ _).1, (himb _ _).2⟩
  · exact ⟨by simp, by intro sa mp h; simp at h, (himb _ _).1, (himb _ _).2⟩
  · exact ⟨by simp, by intro sa mp h; simp at h, (himb _ _).1, (himb _ _).2⟩
  · by_cases hcond : b ≠ 0 ∧ a ≠ 0
    · rw [if_pos hcond, if_pos hcond]
      dsimp only
      refine ⟨?_, ?_, (himb _ _).1, (himb _ _).2⟩
      · split_ifs with h
        · simp only [Option.some.injEq]
          constructor
          · intro hfalse
            exact absurd hfalse (by simp)
          · rintro (h1 | h1 | h1 | h1)
            · exact absurd h1 (by simp)
            · exact absurd h1 h.1
            · exact absurd h1 (by simp)
            · exact absurd h1 h.2
        · push_neg at h
          simp only [Option.some.injEq, true_iff]
          by_cases hab : a - b = 0
          · exact Or.inr (Or.inl hab)
          · exact Or.inr (Or.inr (Or.inr (h hab)))
      · intro sa mp hsa hmp hsane hmpne
        rw [Option.some.injEq] at hsa hmp
        subst hsa
        subst hmp
        rw [if_pos ⟨hsane, hmpne⟩]
    · rw [if_neg hcond, if_neg hcond]
      exact ⟨by simp, by intro sa mp h; simp at h, (himb _ _).1, (himb _ _).2⟩

theorem claim_C6_amended_witness :
    (0 < (compute_l5_metrics c6Row).bid_size_1 + (compute_l5_metrics c6Row).ask_size_1)
    ∧ (compute_l5_metrics c6Row).imbalance_l1 =
        some ((((compute_l5_metrics c6Row).bid_size_1 : ℚ) - ((compute_l5_metrics c6Row).ask_size_1 : ℚ)) /
              (((compute_l5_metrics c6Row).bid_size_1 : ℚ) + ((compute_l5_metrics c6Row).ask_size_1 : ℚ))) :=
  ⟨by norm_num [compute_l5_metrics, c6Row, sizeOr0],
    (claim_C6_amended c6Row).2.2.2 (by norm_num [compute_l5_metrics, c6Row, sizeOr0])⟩

/-- A row whose ask side has a price but zero size. -/
def c7Row : L5Row := { bid := [(some 100, some 10)], ask := [(some 102, some 0)] }

/-- A row with only the bid side present. -/
def c7RowOneSided : L5Row := { bid := [(some 100, some 10)], ask := [] }

/-- C7 counterexample: with a zero-size ask, `microprice_l1` is the weighted
value 102, not the claimed midprice fallback 101; and with only one side
present, `microprice_l1` is null rather than the claimed fallback to the
single available side (100). -/
theorem claim_C7_counterexample :
    ((compute_l5_metrics c7Row).ask_size_1 = 0
      ∧ (compute_l5_metrics c7Row).midprice = some 101
      ∧ (compute_l5_metrics c7Row).microprice_l1 = some 102)
    ∧ ((compute_l5_metrics c7RowOneSided).best_bid = some 100
      ∧ (compute_l5_metrics c7RowOneSided).best_ask = none
      ∧ (compute_l5_metrics c7RowOneSided).microprice_l1 = none) := by
  refine ⟨⟨?_, ?_, ?_⟩, ⟨?_, ?_, ?_⟩⟩ <;>
    norm_num [compute_l5_metrics, c7Row, c7RowOneSided, sizeOr0]

/-- C7 amended: whenever both best prices are present and nonzero and the
L1 size sum is positive — including when one side's size is zero —
`microprice_l1` is the opposite-size-weighted average
`(ask·bid_size + bid·ask_size)/(bid_size + ask_size)` (which degenerates to
the nonzero-size side's opposite price when one size is zero); otherwise it
falls back to `midprice`, which is null when either side is absent. -/
theorem claim_C7_amended (r : L5Row) :
    (∀ b a : ℚ, (compute_l5_metrics r).best_bid = some b →
        (compute_l5_metrics r).best_ask = some a → b ≠ 0 → a ≠ 0 →
        0 < (compute_l5_metrics r).bid_size_1 + (compute_l5_metrics r).ask_size_1 →
        (compute_l5_metrics r).microprice_l1 =
          some ((a * ((compute_l5_metrics r).bid_size_1 : ℚ)
                  + b * ((compute_l5_metrics r).ask_size_1 : ℚ)) /
                (((compute_l5_metrics r).bid_size_1 : ℚ)
                  + ((compute_l5_metrics r).ask_size_1 : ℚ))))
    ∧ (∀ b a : ℚ, (compute_l5_metrics r).best_bid = some b →
        (compute_l5_metrics r).best_ask = some a → b ≠ 0 → a ≠ 0 →
        (compute_l5_metrics r).ask_size_1 = 0 → 0 < (compute_l5_metrics r).bid_size_1 →
        (compute_l5_metrics r).microprice_l1 = some a)
    ∧ (((compute_l5_metrics r).best_bid = none ∨ (compute_l5_metrics r).best_ask = none) →
        (compute_l5_metrics r).microprice_l1 = none
        ∧ (compute_l5_metrics r).midprice = none) := by
  dsimp only [compute_l5_metrics]
  rcases (r.bid.getD 0 (none, none)).1 with _ | b0 <;>
    rcases (r.ask.getD 0 (none, none)).1 with _ | a0 <;> dsimp only
  · exact ⟨by intro b a h; simp at h, by intro b a h; simp at h, fun h => ⟨rfl, rfl⟩⟩
  · exact ⟨by intro b a h; simp at h, by intro b a h; simp at h, fun h => ⟨rfl, rfl⟩⟩
  · exact ⟨by intro b a hb ha; simp at ha, by intro b a hb ha; simp at ha,
      fun h => ⟨rfl, rfl⟩⟩
  · refine ⟨?_, ?_, ?_⟩
    · intro b a hb ha hbne hane hpos
      rw [Option.some.injEq] at hb ha
      subst hb
      subst ha
      rw [if_pos ⟨hbne, hane, hpos⟩]
    · intro b a hb ha hbne hane hzero hpos
      rw [Option.some.injEq] at hb ha
      subst hb
      subst ha
      rw [hzero]
      rw [if_pos ⟨hbne, hane, by omega⟩]
      have hb1 : ((sizeOr0 (r.bid.getD 0 (none, none)).2 : Int) : ℚ) ≠ 0 := by
        exact_mod_cast (by omega : (sizeOr0 (r.bid.getD 0 (none, none)).2 : Int) ≠ 0)
      rw [Option.some.injEq]
      push_cast
      rw [mul_zero, add_zero, add_zero, mul_div_assoc, div_self hb1, mul_one]
    · intro h
      rcases h with h | h <;> simp at h

theorem claim_C7_amended_witness :
    ((compute_l5_metrics c7Row).best_bid = some 100
      ∧ (compute_l5_metrics c7Row).best_ask = some 102
      ∧ (100 : ℚ) ≠ 0 ∧ (102 : ℚ) ≠ 0
      ∧ (compute_l5_metrics c7Row).ask_size_1 = 0
      ∧ 0 < (compute_l5_metrics c7Row).bid_size_1)
    ∧ (compute_l5_metrics c7Row).microprice_l1 = some 102 :=
  ⟨⟨by norm_num [compute_l5_metrics, c7Row, sizeOr0],
    by norm_num [compute_l5_metrics, c7Row, sizeOr0],
    by norm_num, by norm_num,
    by norm_num [compute_l5_metrics, c7Row, sizeOr0],
    by norm_num [compute_l5_metrics, c7Row, sizeOr0]⟩,
    (claim_C7_amended c7Row).2.1 100 102
      (by norm_num [compute_l5_metrics, c7Row, sizeOr0])
      (by norm_num [compute_l5_metrics, c7Row, sizeOr0])
      (by norm_num) (by norm_num)
      (by norm_num [compute_l5_metrics, c7Row, sizeOr0])
      (by norm_num [compute_l5_metrics, c7Row, sizeOr0])⟩

/-! ## Claim theorems: the tokenizer (C9) -/

/-- C9: tokenization is total (the scan below is a terminating function of
the line, so no input can raise); a line whose next top-level block is
balanced yields exactly that block's comma-split, whitespace-trimmed tokens
— with one token per comma-separated field, empties preserved — followed by
the scan of the remainder; and a line whose final block is unbalanced at end
of line contributes no entry at all. -/
theorem claim_C9_tokenizer (pre inner rest : List Char)
    (h1 : braceFree pre) (h2 : braceFree inner) :
    extract_entry_tokens_from_di_line (String.mk (pre ++ '{' :: (inner ++ '}' :: rest)))
      = splitStrip inner :: diScan rest none
    ∧ extract_entry_tokens_from_di_line (String.mk (pre ++ '{' :: inner)) = []
    ∧ (splitStrip inner).length = inner.count ',' + 1 := by
  refine ⟨?_, ?_, splitStrip_length inner⟩
  · show diScan (pre ++ '{' :: (inner ++ '}' :: rest)) none = _
    rw [diScan_skip pre h1]
    have hstep : diScan ('{' :: (inner ++ '}' :: rest)) none
        = diScan (inner ++ '}' :: rest) (some (0, [])) := by
      simp [diScan]
    rw [hstep, diScan_inside inner h2 0 [] rest]
    simp
  · show diScan (pre ++ '{' :: inner) none = []
    rw [diScan_skip pre h1]
    have hstep : diScan ('{' :: inner) none = diScan inner (some (0, [])) := by
      simp [diScan]
    rw [hstep]
    exact diScan_inside_unclosed inner h2 0 []

theorem claim_C9_tokenizer_witness :
    (braceFree ['x'] ∧ braceFree ['1', ',', ' ', '2'])
    ∧ (extract_entry_tokens_from_di_line
          (String.mk (['x'] ++ '{' :: (['1', ',', ' ', '2'] ++ '}' :: ['{'])))
        = splitStrip ['1', ',', ' ', '2'] :: diScan ['{'] none
      ∧ extract_entry_tokens_from_di_line
          (String.mk (['x'] ++ '{' :: ['1', ',', ' ', '2'])) = []
      ∧ (splitStrip ['1', ',', ' ', '2']).length = ['1', ',', ' ', '2'].count ',' + 1) :=
  ⟨⟨by decide, by decide⟩,
    claim_C9_tokenizer ['x'] ['1', ',', ' ', '2'] ['{'] (by decide) (by decide)⟩

/-! ## Claim theorems: the mapping inferencer (C2) -/

/-- Every entry the tokenizer emits has at least one token (a comma split is
never empty). -/
theorem diScan_entry_nonempty :
    ∀ (l : List Char) (st : Option (Nat × List Char)) (e : List String),
      e ∈ diScan l st → 1 ≤ e.length := by
  intro l
  induction l with
  | nil =>
    intro st e he
    cases st <;> simp [diScan] at he
  | cons c cs ih =>
    intro st e he
    rcases st with _ | ⟨d, acc⟩
    · simp only [diScan] at he
      split at he
      · exact ih _ _ he
      · exact ih _ _ he
    · simp only [diScan] at he
      split at he
      · cases d with
        | zero =>
          rcases List.mem_cons.1 he with rfl | he
          · rw [splitStrip_length]
            omega
          · exact ih _ _ he
        | succ d' => exact ih _ _ he
      · split at he
        · exact ih _ _ he
        · exact ih _ _ he

theorem foldl_max_init (l : List Nat) : ∀ a, a ≤ l.foldl max a := by
  induction l with
  | nil => intro a; exact le_refl a
  | cons y ys ih => intro a; exact le_trans (le_max_left a y) (ih (max a y))

theorem le_foldl_max (l : List Nat) : ∀ (a x : Nat), x ∈ l → x ≤ l.foldl max a := by
  induction l with
  | nil => intro a x hx; simp at hx
  | cons y ys ih =>
    intro a x hx
    rcases List.mem_cons.1 hx with rfl | hx
    · exact le_trans (le_max_right a x) (foldl_max_init ys (max a x))
    · exact ih (max a y) x hx

theorem maxTokLen_pos (samples : List (List String)) (hne : samples ≠ [])
    (hlen : ∀ e ∈ samples, 1 ≤ e.length) : 1 ≤ maxTokLen samples := by
  rcases samples with _ | ⟨e, rest⟩
  · exact absurd rfl hne
  · have h1 : e.length ∈ (e :: rest).map List.length := by simp
    exact le_trans (hlen e (by simp)) (le_foldl_max _ 0 _ h1)

theorem foldl_argmax_noupdate (f : Nat → Nat) (l : List Nat) (b : Nat)
    (h : ∀ i ∈ l, ¬f i > f b) :
    l.foldl (fun best i => if f i > f best then i else best) b = b := by
  induction l with
  | nil => rfl
  | cons x xs ih =>
    have hx : ¬f x > f b := h x (by simp)
    simp only [List.foldl_cons, if_neg hx]
    exact ih (fun i hi => h i (by simp [hi]))

/-- Python `max(range(n), key=f)` returns 0 when all the counts are zero. -/
theorem argmaxFirst_of_zero (f : Nat → Nat) (n : Nat) (h : ∀ i, f i = 0) :
    argmaxFirst f n = 0 := by
  unfold argmaxFirst
  apply foldl_argmax_noupdate
  intro i _
  simp [h]

theorem colCount_big_ns_zero (samples : List (List String)) (idx : Nat)
    (h : ∀ e ∈ samples, ∀ t ∈ e, is_big_ns_int t = false) :
    colCount samples is_big_ns_int idx = 0 := by
  unfold colCount
  rw [List.countP_eq_zero]
  intro e he
  by_cases hidx : idx < e.length
  · rw [List.getD_eq_getElem e "" hidx]
    simp [h e he _ (List.getElem_mem hidx)]
  · rw [List.getD_eq_default _ _ (le_of_not_lt hidx)]
    decide

/-- The sampled line of the C2 counterexample: two small integer tokens and
no 16–20-digit integer anywhere. -/
def c2SampleLine : String := String.mk ['\x7b', '1', ',', '2', '\x7d']

/-- C2 counterexample: a sample with entries but no 16–20-digit integer in
any column still yields a Mapping — inference does not fail. -/
theorem claim_C2_counterexample :
    (∀ e ∈ sampleEntries [c2SampleLine] 200, ∀ t ∈ e, is_big_ns_int t = false)
    ∧ (infer_di_mapping [c2SampleLine] 200).isSome = true := by
  constructor
  · decide
  · rfl

/-- C2 amended: inference fails (returns `none`) exactly when the sample
contains no entries at all; when entries exist but no column holds a
16–20-digit integer, it still returns a Mapping, whose timestamp index is
the argmax over all-zero counts — column 0. -/
theorem claim_C2_amended (lines : List String) (limit : Nat) :
    (infer_di_mapping lines limit = none ↔ sampleEntries lines limit = [])
    ∧ ((sampleEntries lines limit ≠ []
          ∧ ∀ e ∈ sampleEntries lines limit, ∀ t ∈ e, is_big_ns_int t = false) →
        ∃ m, infer_di_mapping lines limit = some m ∧ m.ts_ns_idx = 0) := by
  have hlens : ∀ e ∈ sampleEntries lines limit, 1 ≤ e.length := by
    intro e he
    rw [sampleEntries, List.mem_flatMap] at he
    obtain ⟨line, _, hent⟩ := he
    exact diScan_entry_nonempty _ _ _ hent
  by_cases hS : sampleEntries lines limit = []
  · constructor
    · unfold infer_di_mapping
      simp [hS]
    · intro h
      exact absurd hS h.1
  · have hn : 1 ≤ maxTokLen (sampleEntries lines limit) := maxTokLen_pos _ hS hlens
    have hsm : (sampleEntries lines limit).isEmpty = false :=
      List.isEmpty_eq_false.2 hS
    constructor
    · unfold infer_di_mapping
      simp only [hsm, Bool.false_eq_true, if_false]
      rw [if_neg (by omega)]
      simp [hS]
    · rintro ⟨-, hbig⟩
      unfold infer_di_mapping
      simp only [hsm, Bool.false_eq_true, if_false]
      rw [if_neg (by omega)]
      refine ⟨_, rfl, ?_⟩
      dsimp only
      exact argmaxFirst_of_zero _ _ (fun i => colCount_big_ns_zero _ i hbig)

theorem claim_C2_amended_witness :
    (sampleEntries [c2SampleLine] 200 ≠ []
      ∧ ∀ e ∈ sampleEntries [c2SampleLine] 200, ∀ t ∈ e, is_big_ns_int t = false)
    ∧ ∃ m, infer_di_mapping [c2SampleLine] 200 = some m ∧ m.ts_ns_idx = 0 :=
  ⟨⟨by decide, by decide⟩,
    (claim_C2_amended [c2SampleLine] 200).2 ⟨by decide, by decide⟩⟩

/-! ## Claim theorems: the chunk-and-merge pipeline (C1) -/

theorem toBatches_flatten (B : Nat) (l : List α) : (toBatches B l).flatten = l := by
  have H : ∀ (n : Nat) (l : List α), l.length = n → (toBatches B l).flatten = l := by
    intro n
    induction n using Nat.strong_induction_on with
    | _ n ih =>
      intro l hn
      match B, l with
      | _, [] => simp [toBatches]
      | 0, x :: xs => simp [toBatches]
      | B' + 1, x :: xs =>
        rw [toBatches]
        have hdrop : (xs.drop B').length < n := by
          rw [← hn]
          simp [List.length_drop]
          omega
        simp only [List.flatten_cons, ih _ hdrop (xs.drop B') rfl]
        simp [List.take_append_drop]
  exact H l.length l rfl

theorem toBatches_mem_sublist (B : Nat) (l : List α) (b : List α)
    (hb : b ∈ toBatches B l) : b.Sublist l := by
  have H : ∀ (n : Nat) (l : List α), l.length = n →
      ∀ b ∈ toBatches B l, b.Sublist l := by
    intro n
    induction n using Nat.strong_induction_on with
    | _ n ih =>
      intro l hn b hb
      match B, l with
      | _, [] => simp [toBatches] at hb
      | 0, x :: xs =>
        simp only [toBatches, List.mem_singleton] at hb
        rw [hb]
      | B' + 1, x :: xs =>
        rw [toBatches] at hb
        rcases List.mem_cons.1 hb with rfl | hb
        · exact (List.take_sublist B' xs).cons₂ x
        · have hdrop : (xs.drop B').length < n := by
            rw [← hn]
            simp [List.length_drop]
            omega
          exact ((ih _ hdrop (xs.drop B') rfl b hb).trans (List.drop_sublist B' xs)).trans
            (List.sublist_cons_self x xs)
  exact H l.length l rfl b hb

theorem flatten_sublist_of_sublist {l₁ l₂ : List (List α)} (h : l₁.Sublist l₂) :
    l₁.flatten.Sublist l₂.flatten := by
  induction h with
  | slnil => exact List.Sublist.refl _
  | cons a _ ih => simpa using ih.trans (List.sublist_append_right a _)
  | cons₂ a _ ih => simpa using (List.Sublist.refl a).append ih

/-- C1: for any partition of a `(ts_ns, security_id)`-ordered snapshot
sequence into chunks, sorting each chunk at flush time and merging with
bounded-size concatenate-and-sort batches plus a final concatenate-and-sort
reproduces the original sequence exactly — nothing lost, duplicated, or
reordered.  (`sort_values` is modelled as a stable sort by the same key.) -/
theorem claim_C1_merge_reproduces (B : Nat) (orig : List Snap) (cs : List (List Snap))
    (hpart : cs.flatten = orig) (hsorted : List.Sorted snapLE orig) :
    chunkPipeline B cs = orig := by
  subst hpart
  have hsortEq : ∀ (l : List Snap), l.Sublist cs.flatten → sortSnaps l = l := by
    intro l hl
    exact List.Sorted.insertionSort_eq (List.Pairwise.sublist hl hsorted)
  have hflush : cs.map flushChunk = cs := by
    have : cs.map flushChunk = cs.map id :=
      List.map_congr_left (fun c hc =>
        hsortEq c (List.sublist_flatten_of_mem hc))
    rw [this, List.map_id]
  unfold chunkPipeline mergeChunks
  rw [hflush]
  split_ifs with hlen
  · have hbatch : (toBatches B cs).map (fun batch => sortSnaps batch.flatten)
        = (toBatches B cs).map List.flatten :=
      List.map_congr_left (fun b hb =>
        hsortEq b.flatten (flatten_sublist_of_sublist (toBatches_mem_sublist B cs b hb)))
    rw [hbatch, ← List.flatten_flatten, toBatches_flatten]
    exact hsortEq _ (List.Sublist.refl _)
  · exact hsortEq _ (List.Sublist.refl _)

/-- Three snapshots in key order, with a tie on `(ts_ns, security_id)`
broken by distinct payloads kept in their original positions. -/
def c1s1 : Snap := { ts_ns := 1, security_id := 1, payload := [some 10] }

def c1s2 : Snap := { ts_ns := 1, security_id := 2, payload := [] }

def c1s3 : Snap := { ts_ns := 2, security_id := 1, payload := [some 7] }

theorem claim_C1_merge_reproduces_witness :
    ([[c1s1], [c1s2], [c1s3]].flatten = [c1s1, c1s2, c1s3]
      ∧ List.Sorted snapLE [c1s1, c1s2, c1s3])
    ∧ chunkPipeline 1 [[c1s1], [c1s2], [c1s3]] = [c1s1, c1s2, c1s3] :=
  ⟨⟨rfl, by simp [List.sorted_cons, snapLE, c1s1, c1s2, c1s3]⟩,
    claim_C1_merge_reproduces 1 [c1s1, c1s2, c1s3] [[c1s1], [c1s2], [c1s3]] rfl
      (by simp [List.sorted_cons, snapLE, c1s1, c1s2, c1s3])⟩

end EurexLiq
